import Mathlib

/-!
Verification development for the conversational-memory backend.

The definitions below are shallow embeddings of the Python services in
`src/`: focus/whisper store (`services/focus_service.py`), short-term
context store (`services/context_service.py`), profile slot store
(`services/profile_service.py` with `schemas/profile_schema.py`), the
memory-engine dump (`services/memory_service.py`), and the turn
orchestrator (`routers/chat.py`).

Conventions of the embedding:
* Timestamps are natural numbers counted in minutes; calendar dates are
  natural numbers counted in days, with `dayOf t = t / 1440` playing the
  role of `datetime.date()`. Date strings such as `expected_date` are
  modelled already parsed (`Option Nat`); the `try/except` branches of the
  Python code that swallow unparseable stored values are therefore not
  reachable in the model.
* Every LLM call is an oracle parameter (`Option`-valued: `none` models an
  exception / unparseable reply), mirroring the `try/except` fallbacks of
  the Python code.
* SQLite rows are lists of records; `AUTOINCREMENT` ids are threaded
  explicitly.
-/

namespace MemoryBackend

/-! ## Focus store (`services/focus_service.py`) -/

/-- One row of the `user_focus` table. -/
structure FocusRow where
  fid : Nat
  userId : String
  content : String
  status : String
  expectedDate : Option Nat
  createdAt : Nat
  updatedAt : Nat
  lastInjectedAt : Option Nat
deriving DecidableEq, Repr

/-- `DEFAULT_FOCUS_TTL_DAYS` of `focus_service.py`. -/
def DEFAULT_FOCUS_TTL_DAYS : Nat := 14

/-- `INJECTION_COOLDOWN_HOURS` of `focus_service.py`. -/
def INJECTION_COOLDOWN_HOURS : Nat := 12

def minutesPerHour : Nat := 60
def minutesPerDay : Nat := 1440

/-- The calendar day of a timestamp, playing the role of `.date()`. -/
def dayOf (t : Nat) : Nat := t / minutesPerDay

/-- The expiry test of `get_active_focus_with_time`: with an
`expected_date`, expired once today is strictly past the date plus one
buffer day; without one, expired once today is strictly past the creation
day plus the default TTL. -/
def isExpired (today : Nat) (f : FocusRow) : Bool :=
  match f.expectedDate with
  | some d => decide (today > d + 1)
  | none => decide (today > dayOf f.createdAt + DEFAULT_FOCUS_TTL_DAYS)

/-- The cooldown test of `get_active_focus_with_time`: in cooldown while
`now < last_injected_at + 12h`. -/
def inCooldown (now : Nat) (f : FocusRow) : Bool :=
  match f.lastInjectedAt with
  | some t => decide (now < t + INJECTION_COOLDOWN_HOURS * minutesPerHour)
  | none => false

/-- Insertion of a row into a list sorted by `created_at` descending. -/
def insertByCreatedDesc (f : FocusRow) : List FocusRow → List FocusRow
  | [] => [f]
  | g :: gs =>
    if g.createdAt ≤ f.createdAt then f :: g :: gs else g :: insertByCreatedDesc f gs

/-- `ORDER BY created_at DESC` of the SQL query. -/
def sortByCreatedDesc : List FocusRow → List FocusRow
  | [] => []
  | f :: fs => insertByCreatedDesc f (sortByCreatedDesc fs)

/-- The SQL part of `get_active_focus_with_time`: rows of the user with
`status = 'active'`, newest first. -/
def activeRowsSorted (db : List FocusRow) (u : String) : List FocusRow :=
  sortByCreatedDesc (db.filter (fun f => f.userId == u && f.status == "active"))

/-- The row-level content of `FocusService.get_active_focus_with_time`:
the user's active rows with expired and cooling-down rows filtered out.
`today` is derived from the same clock reading as `now`. -/
def getActiveFocusRows (db : List FocusRow) (u : String) (now : Nat) : List FocusRow :=
  (activeRowsSorted db u).filter (fun f => !isExpired (dayOf now) f && !inCooldown now f)

/-- One entry of the list returned by `get_active_focus_with_time`
(`recorded_at` is the creation date, `str(created_at)[:10]` in Python). -/
structure FocusInfo where
  fid : Nat
  content : String
  recordedAt : Nat
  expectedDate : Option Nat
deriving DecidableEq, Repr

/-- `FocusService.get_active_focus_with_time`. -/
def getActiveFocusWithTime (db : List FocusRow) (u : String) (now : Nat) : List FocusInfo :=
  (getActiveFocusRows db u now).map (fun f =>
    { fid := f.fid, content := f.content, recordedAt := dayOf f.createdAt,
      expectedDate := f.expectedDate })

/-- The focus database together with the `AUTOINCREMENT` counter. -/
structure FocusDB where
  rows : List FocusRow
  nextId : Nat
deriving DecidableEq, Repr

/-- `FocusService.add_focus`: if an active row of the user with the same
content exists, refresh its `updated_at` (and overwrite `expected_date`
only when a new one is passed); otherwise insert a fresh row. -/
def addFocus (st : FocusDB) (u content : String) (expected : Option Nat) (now : Nat) : FocusDB :=
  match st.rows.filter (fun f => f.userId == u && f.content == content && f.status == "active") with
  | [] =>
    { rows := st.rows ++
        [{ fid := st.nextId, userId := u, content := content, status := "active",
           expectedDate := expected, createdAt := now, updatedAt := now,
           lastInjectedAt := none }],
      nextId := st.nextId + 1 }
  | f :: _ =>
    { st with rows := st.rows.map (fun r =>
        if r.fid == f.fid then
          match expected with
          | some d => { r with updatedAt := now, expectedDate := some d }
          | none => { r with updatedAt := now }
        else r) }

/-- One `recent_focus` item produced by the extraction agent
(`agents/extraction_agent.py`), including the `expected_date` the prompt
asks for. -/
structure RecentFocusItem where
  content : String
  evidence : String
  expectedDate : Option Nat
deriving DecidableEq, Repr

/-- The focus-insertion loop of `_process_chat_background`
(`routers/chat.py`): for each extracted `recent_focus` item it calls
`focus_service.add_focus(user_id, focus.get("content"))`, passing no
`expected_date`. -/
def bgAddFocus (st : FocusDB) (u : String) (now : Nat) (items : List RecentFocusItem) : FocusDB :=
  items.foldl (fun s it => addFocus s u it.content none now) st

/-! ## Whisper store (`services/focus_service.py`) -/

/-- One row of the `whisper_suggestions` table. -/
structure WhisperRow where
  wid : Nat
  userId : String
  suggestion : String
  isConsumed : Bool
  createdAt : Nat
deriving DecidableEq, Repr

/-- The unconsumed rows of a user. -/
def unconsumedFor (db : List WhisperRow) (u : String) : List WhisperRow :=
  db.filter (fun r => r.userId == u && !r.isConsumed)

/-- Keep whichever of the accumulator and the next row is newer. -/
def pickNewer (best : Option WhisperRow) (r : WhisperRow) : Option WhisperRow :=
  match best with
  | none => some r
  | some b => if b.createdAt < r.createdAt then some r else some b

/-- `SELECT ... WHERE user_id = ? AND is_consumed = 0 ORDER BY created_at
DESC LIMIT 1`: the unconsumed row of the user with the greatest
`created_at` (the first listed one on ties). -/
def newestUnconsumed (db : List WhisperRow) (u : String) : Option WhisperRow :=
  (unconsumedFor db u).foldl pickNewer none

/-- `FocusService.get_latest_whisper`: return the newest unconsumed
suggestion of the user and mark that row consumed; `none` when every row
is consumed. Returns the reply together with the updated table. -/
def getLatestWhisper (db : List WhisperRow) (u : String) : Option String × List WhisperRow :=
  match newestUnconsumed db u with
  | none => (none, db)
  | some r =>
    (some r.suggestion,
     db.map (fun x => if x.wid == r.wid then { x with isConsumed := true } else x))

/-- `FocusService.save_whisper_suggestion`: append a fresh unconsumed row. -/
def saveWhisper (db : List WhisperRow) (nextId : Nat) (u text : String) (now : Nat) :
    List WhisperRow :=
  db ++ [{ wid := nextId, userId := u, suggestion := text, isConsumed := false, createdAt := now }]

/-! ## Context store (`services/context_service.py`) -/

/-- One chat message. -/
structure Msg where
  role : String
  content : String
deriving DecidableEq, Repr

/-- One row of the `user_context` table (`recent_messages` decoded). -/
structure CtxRow where
  summary : String
  recent : List Msg
  updatedAt : Nat
deriving DecidableEq, Repr

/-- The dictionary returned by `ContextService.get_context`. -/
structure CtxResult where
  summary : String
  history : List Msg
  fullText : String
deriving DecidableEq, Repr

/-- `session_timeout_hours = 3`, in minutes. -/
def SESSION_TIMEOUT_MINUTES : Nat := 180

/-- `max_history_rounds` of `ContextService`. -/
def MAX_HISTORY_ROUNDS : Nat := 50

/-- The summarizer LLM call of `ContextService._summarize`, as an oracle
from the current summary and the messages to the new summary; `none`
models the call raising. -/
def SummOracle : Type := String → List Msg → Option String

/-- `ContextService._summarize`: on success the oracle's reply becomes the
new summary and only the last two messages are kept; on failure the old
summary and all messages are returned unchanged. -/
def summarize (oracle : SummOracle) (cur : String) (msgs : List Msg) : String × List Msg :=
  match oracle cur msgs with
  | some newSummary =>
    (newSummary, if 2 ≤ msgs.length then msgs.drop (msgs.length - 2) else msgs)
  | none => (cur, msgs)

/-- The session-timeout rule of `get_context`: when the summary is
non-empty and more than three hours have passed since `updated_at`, the
summary is cleared (and persisted cleared); nothing else changes. -/
def sessionStep (now : Nat) (r : CtxRow) : CtxRow :=
  if r.summary ≠ "" ∧ SESSION_TIMEOUT_MINUTES < now - r.updatedAt then
    { r with summary := "" }
  else r

/-- The compaction rule of `get_context`: when the stored rounds reach
`max_history_rounds`, summarize and persist the result with a fresh
`updated_at`; otherwise leave the row alone. -/
def compactStep (oracle : SummOracle) (now : Nat) (r : CtxRow) : CtxRow :=
  if MAX_HISTORY_ROUNDS ≤ r.recent.length / 2 then
    let p := summarize oracle r.summary r.recent
    { summary := p.1, recent := p.2, updatedAt := now }
  else r

/-- The `"role: content"` rendering of a history. -/
def histText (msgs : List Msg) : String :=
  String.intercalate "\n" (msgs.map (fun m => m.role ++ ": " ++ m.content))

/-- The `full_text` field assembled by `get_context`. -/
def fullTextOf (summary : String) (msgs : List Msg) : String :=
  (if summary ≠ "" then "前情提要:\n" ++ summary ++ "\n\n" else "") ++
  (if histText msgs ≠ "" then "最近对话:\n" ++ histText msgs else "")

/-- `ContextService.get_context`: returns the result dictionary together
with the row as stored afterwards (`none` when the user has no row). -/
def getContext (oracle : SummOracle) (now : Nat) (row : Option CtxRow) :
    CtxResult × Option CtxRow :=
  match row with
  | none => ({ summary := "", history := [], fullText := "" }, none)
  | some r =>
    let r2 := compactStep oracle now (sessionStep now r)
    ({ summary := r2.summary, history := r2.recent,
       fullText := fullTextOf r2.summary r2.recent }, some r2)

/-- `ContextService.append_message`: append to `recent` and bump
`updated_at`, creating the row when absent. -/
def appendCtx (row : Option CtxRow) (msgs : List Msg) (now : Nat) : CtxRow :=
  match row with
  | some r => { r with recent := r.recent ++ msgs, updatedAt := now }
  | none => { summary := "", recent := msgs, updatedAt := now }

/-! ## Profile store (`services/profile_service.py`, `schemas/profile_schema.py`) -/

/-- A slot value: the JSON values the store handles are strings and lists
of strings. -/
inductive Val where
  | vs : String → Val
  | vl : List String → Val
deriving DecidableEq, Repr

/-- The user's slot dictionary, as an insertion-ordered association list. -/
abbrev Slots : Type := List (String × Val)

/-- `dict.get(key)`. -/
def getSlot : Slots → String → Option Val
  | [], _ => none
  | p :: rest, k => if p.1 == k then some p.2 else getSlot rest k

/-- `dict[key] = value`: replace in place, or append a new entry. -/
def setSlot : Slots → String → Val → Slots
  | [], k, v => [(k, v)]
  | p :: rest, k, v => if p.1 == k then (k, v) :: rest else p :: setSlot rest k v

/-- The merge strategies of `SLOT_SCHEMA`. -/
inductive Strategy where
  | replace
  | append
  | llmJudge
deriving DecidableEq, Repr

/-- `SLOT_SCHEMA`: the closed slot enum with each key's merge strategy
(`none` for unknown keys). -/
def strategyOf (k : String) : Option Strategy :=
  match k with
  | "nickname" => some .replace
  | "age_range" => some .replace
  | "occupation" => some .replace
  | "life_status" => some .replace
  | "hobbies" => some .append
  | "preferences" => some .append
  | "daily_routine" => some .replace
  | "important_people" => some .append
  | "health_status" => some .replace
  | "response_preference" => some .replace
  | "recent_focus" => some .replace
  | "recent_mood" => some .replace
  | "recent_events" => some .append
  | "goals" => some .replace
  | "emotional_baseline" => some .llmJudge
  | "social_tendency" => some .llmJudge
  | "stress_coping" => some .llmJudge
  | "self_perception" => some .llmJudge
  | "core_emotional_need" => some .llmJudge
  | "security_source" => some .llmJudge
  | "anxiety_trigger" => some .append
  | "disliked_responses" => some .append
  | "liked_responses" => some .append
  | "boundaries" => some .append
  | "reply_style_pref" => some .replace
  | "role_expectation" => some .replace
  | "interaction_mode" => some .replace
  | "core_beliefs" => some .llmJudge
  | "values" => some .append
  | "defense_mechanisms" => some .llmJudge
  | "attachment_style" => some .replace
  | "emotion_regulation" => some .llmJudge
  | _ => none

/-- The empty-value filter of `batch_update`: a string whose `strip()` is
empty (all characters whitespace), or a list that is empty or whose
elements are all the empty string. -/
def emptyVal : Val → Bool
  | .vs x => x.data.all Char.isWhitespace
  | .vl xs => xs.isEmpty || xs.all (fun x => x == "")

/-- Python truthiness of a slot value (`if current_slots.get(key)`). -/
def truthy : Val → Bool
  | .vs x => x != ""
  | .vl xs => !xs.isEmpty

/-- The list-normalization of the append branch: a missing or falsy
current value becomes `[]`, a truthy string becomes a singleton, a list
stays itself. -/
def normList (cur : Option Val) : List String :=
  match cur with
  | some (.vl xs) => xs
  | some (.vs x) => if x == "" then [] else [x]
  | none => []

/-- Append one element unless already present (exact string equality). -/
def insElem (l : List String) (x : String) : List String :=
  if x ∈ l then l else l ++ [x]

/-- The append-merge of a new value into the normalized current list. -/
def appMerge (l : List String) : Val → List String
  | .vs x => insElem l x
  | .vl xs => xs.foldl insElem l

/-- The element-appending inner loop of the append branch, counting how
many elements were actually appended. -/
def appMergeCount (l : List String) : Val → List String × Nat
  | .vs x => if x ∈ l then (l, 0) else (l ++ [x], 1)
  | .vl xs => xs.foldl (fun p x => if x ∈ p.1 then p else (p.1 ++ [x], p.2 + 1)) (l, 0)

/-- One entry of the `updates` argument of `batch_update`
(`{"slot": ..., "value": ..., "evidence": ...}`; slot and value may be
missing). -/
structure SlotUpdate where
  slot : Option String
  value : Option Val
deriving DecidableEq, Repr

/-- The loop body of `ProfileService.batch_update` over the accumulated
`(current_slots, updated_count)`. Empty values are skipped, then invalid
keys; `append` slots merge with exact-equality dedup; every other
strategy — `replace` and, by the code's explicit simplification,
`llm_judge` as well — overwrites when the value differs. -/
def batchStep (acc : Slots × Nat) (u : SlotUpdate) : Slots × Nat :=
  match u.value with
  | none => acc
  | some v =>
    if emptyVal v then acc
    else
      match u.slot with
      | none => acc
      | some k =>
        if k == "" then acc
        else
          match strategyOf k with
          | none => acc
          | some .append =>
            let p := appMergeCount (normList (getSlot acc.1 k)) v
            (setSlot acc.1 k (.vl p.1), acc.2 + p.2)
          | some _ =>
            if getSlot acc.1 k == some v then acc
            else (setSlot acc.1 k v, acc.2 + 1)

/-- The fold of `batch_update` over all updates. -/
def batchUpdateFold (s : Slots) (us : List SlotUpdate) : Slots × Nat :=
  us.foldl batchStep (s, 0)

/-- `ProfileService.batch_update`: the slot dictionary as persisted
afterwards — `_save_slots` runs only when `updated_count > 0`, so a
no-change batch leaves the stored row untouched. -/
def batchUpdate (s : Slots) (us : List SlotUpdate) : Slots :=
  if 0 < (batchUpdateFold s us).2 then (batchUpdateFold s us).1 else s

/-- The slots component of one `batch_update` loop iteration (the running
count never influences it). -/
def slotStep (s : Slots) (u : SlotUpdate) : Slots := (batchStep (s, 0) u).1

/-- The elements a value contributes to an append-slot list. -/
def elems : Val → List String
  | .vs x => [x]
  | .vl xs => xs

/-- The effect of one update on a single key's value, per strategy; used
to localize the `batch_update` fold to one key. -/
def valStep (strat : Strategy) (cur : Option Val) (v : Val) : Option Val :=
  match strat with
  | .append => some (.vl (appMerge (normList cur) v))
  | _ => some v

/-- The values an update list effectively applies to the key `k`: updates
that survive the empty-value and key filters and target `k`. -/
def keyVals (k : String) (us : List SlotUpdate) : List Val :=
  us.filterMap (fun u =>
    match u.value with
    | none => none
    | some v =>
      if emptyVal v then none
      else
        match u.slot with
        | none => none
        | some k' =>
          if k' == "" then none
          else
            match strategyOf k' with
            | none => none
            | some _ => if k' == k then some v else none)

/-- The strategy of a key, defaulting to `replace` (the default is only
read for keys that no effective update targets). -/
def stratD (k : String) : Strategy := (strategyOf k).getD .replace

/-- `str(value)` as applied by `_merge_slots` before `_llm_merge`. -/
def pyStr : Val → String
  | .vs x => x
  | .vl xs => "[" ++ String.intercalate ", " (xs.map (fun x => "\x27" ++ x ++ "\x27")) ++ "]"

/-- The adjudication LLM call of `ProfileService._llm_merge`, as an oracle
from `(slot_key, old, new)` to the parsed `value` field; `none` models a
raised or unparseable reply. -/
def MergeOracle : Type := String → String → String → Option String

/-- `ProfileService._llm_merge`: the oracle's parsed value, falling back
to the new value on failure. -/
def llmMerge (oracle : MergeOracle) (k old new : String) : String :=
  (oracle k old new).getD new

/-- `ProfileService._merge_slots` (the `extract_slots` merge path): per
key, a missing old value is set directly (no empty-value filtering);
otherwise the slot's strategy is applied — note that `llm_judge` does call
the gateway here, unlike in `batch_update`. The result is always
persisted. -/
def mergeSlots (oracle : MergeOracle) (s : Slots) (newSlots : List (String × Val)) : Slots :=
  newSlots.foldl
    (fun cur kv =>
      match strategyOf kv.1 with
      | none => cur
      | some strat =>
        match getSlot cur kv.1 with
        | none => setSlot cur kv.1 kv.2
        | some old =>
          match strat with
          | .replace => setSlot cur kv.1 kv.2
          | .append => setSlot cur kv.1 (.vl (appMerge (normList (some old)) kv.2))
          | .llmJudge =>
            let merged := llmMerge oracle kv.1 (pyStr old) (pyStr kv.2)
            if Val.vs merged == old then cur else setSlot cur kv.1 (.vs merged))
    s

/-- `ProfileService.update_slot`: reject unknown keys (`none`, nothing
written); otherwise store the value as given — there is no empty-value
check on this path. -/
def updateSlot (s : Slots) (k : String) (v : Val) : Option Slots :=
  if (strategyOf k).isSome then some (setSlot s k v) else none

/-- Modelled after the spec's words for the `adjudicate` strategy of
`batch_update` (§4.C): "call `json` on the gateway with the pair
(old, new) … use the result if parsed, else fall back to the new value".
Used only to compare the specified behaviour with the source's
`batch_update`. -/
def specAdjudicateStep (oracle : MergeOracle) (s : Slots) (k : String) (v : Val) : Slots :=
  match getSlot s k with
  | some old =>
    match oracle k (pyStr old) (pyStr v) with
    | some m => setSlot s k (.vs m)
    | none => setSlot s k v
  | none => setSlot s k v

/-! ## Memory-engine dump (`services/memory_service.py`, `MemoryService.get_all`) -/

/-- One edge record produced by the Cypher query of `get_all` (timestamps
kept as their ISO strings, which is how the sort key uses them). -/
structure EdgeRec where
  subject : String
  relation : String
  obj : String
  fact : String
  validAt : Option String
  invalidAt : Option String
  createdAt : Option String
deriving DecidableEq, Repr

/-- One element of the `memories` list built by `get_all`. -/
structure MemoryItem where
  subject : String
  relation : String
  obj : String
  content : String
  fact : String
  validAt : Option String
  invalidAt : Option String
  createdAt : Option String
  isCurrent : Bool
deriving DecidableEq, Repr

/-- The dictionary `get_all` builds per edge; `is_current` is
`invalid_at is None`. -/
def toMemoryItem (e : EdgeRec) : MemoryItem :=
  { subject := e.subject, relation := e.relation, obj := e.obj,
    content := e.fact, fact := e.fact, validAt := e.validAt,
    invalidAt := e.invalidAt, createdAt := e.createdAt,
    isCurrent := e.invalidAt.isNone }

/-- The `memories` list of `get_all`: every edge whose relation type is
not `MENTIONS` (the `WHERE type(r) <> 'MENTIONS'` clause), mapped to its
dictionary. -/
def getAllMemories (edges : List EdgeRec) : List MemoryItem :=
  (edges.filter (fun e => e.relation ≠ "MENTIONS")).map toMemoryItem

/-- The sort key `x.get("valid_at") or ""`. -/
def validKey (m : MemoryItem) : String := m.validAt.getD ""

/-- Insertion into a list sorted by `valid_at` ascending. -/
def insertByValidAsc (m : MemoryItem) : List MemoryItem → List MemoryItem
  | [] => [m]
  | x :: xs =>
    if validKey m ≤ validKey x then m :: x :: xs else x :: insertByValidAsc m xs

/-- The per-group `history.sort(key=...)` of `get_all`. -/
def sortByValidAsc : List MemoryItem → List MemoryItem
  | [] => []
  | m :: ms => insertByValidAsc m (sortByValidAsc ms)

/-- The relations in first-appearance order (dict insertion order of
`grouped_history`). -/
def relationKeys (ms : List MemoryItem) : List String :=
  ms.foldl (fun ks m => if m.relation ∈ ks then ks else ks ++ [m.relation]) []

/-- The `grouped_history` dictionary that `get_all` computes and
sorts — and then leaves out of its return value. -/
def groupedHistory (edges : List EdgeRec) : List (String × List MemoryItem) :=
  let ms := getAllMemories edges
  (relationKeys ms).map (fun rel => (rel, sortByValidAsc (ms.filter (fun m => m.relation == rel))))

/-- One episode entry of the `episodes` list (its construction is
orthogonal to the dump claim, so the records are passed through). -/
structure EpisodeItem where
  name : String
  content : String
  typ : String
  createdAt : Option String
deriving DecidableEq, Repr

/-- The dictionary literally returned by `MemoryService.get_all`: its keys
are exactly `memories`, `episodes` and `count` — `grouped_history` is not
among them. -/
structure GetAllReturn where
  memories : List MemoryItem
  episodes : List EpisodeItem
  count : Nat
deriving DecidableEq, Repr

/-- `MemoryService.get_all` (the episode query's records passed in). -/
def getAll (edges : List EdgeRec) (episodeRecords : List EpisodeItem) : GetAllReturn :=
  let ms := getAllMemories edges
  { memories := ms, episodes := episodeRecords, count := ms.length + episodeRecords.length }

/-- `result.get("grouped")` as evaluated by the `/memory` router
(`routers/memory.py`) on `get_all`'s return dictionary: the key is absent
from `GetAllReturn`, so the lookup yields `none` for every result. -/
def routerGrouped (_r : GetAllReturn) : Option (List (String × List MemoryItem)) := none

/-! ## Turn orchestrator (`routers/chat.py`, `chat_interact`) -/

/-- The per-user state touched by the synchronous path of
`chat_interact`: the whisper table, the context row, and the chat-log
audit sink. -/
structure TurnState where
  whispers : List WhisperRow
  ctx : Option CtxRow
  chatLog : List Msg
deriving DecidableEq, Repr

/-- The synchronous path of `chat_interact`. Step 1 (preparation) reads
the context — possibly compacting it — and reads-and-consumes the newest
whisper via `get_latest_whisper`; step 2 composes the prompt; step 3 is
the chat LLM call, modelled by `chatOracle` (`none` = the call raises, and
the handler surfaces an HTTP 500, modelled as a `none` reply); step 4
appends the two turn messages to the chat log and the context. Returns
the reply together with the state as persisted. -/
def chatInteract (ctxOracle : SummOracle) (chatOracle : Option String) (now : Nat)
    (u uq : String) (st : TurnState) : Option String × TurnState :=
  let ctx1 := (getContext ctxOracle now st.ctx).2
  let w := getLatestWhisper st.whispers u
  match chatOracle with
  | none => (none, { st with ctx := ctx1, whispers := w.2 })
  | some reply =>
    let msgs := [{ role := "user", content := uq }, { role := "assistant", content := reply }]
    (some reply,
     { whispers := w.2, ctx := some (appendCtx ctx1 msgs now), chatLog := st.chatLog ++ msgs })

/-! ## Concrete fixtures used by counterexamples and witnesses -/

/-- A summarizer oracle whose call always raises. -/
def failSummarizer : SummOracle := fun _ _ => none

/-- A summarizer oracle that always answers with a fixed summary. -/
def okSummarizer : SummOracle := fun _ _ => some "S"

/-- A context row holding fifty full rounds. -/
def row100 : CtxRow :=
  { summary := "", recent := List.replicate 100 { role := "user", content := "hi" }, updatedAt := 0 }

/-- A context row with a stale non-empty summary. -/
def staleRow : CtxRow :=
  { summary := "old summary",
    recent := [{ role := "user", content := "a" }, { role := "assistant", content := "b" }],
    updatedAt := 0 }

/-- A whisper table with two unconsumed suggestions for the same user. -/
def whisperTwo : List WhisperRow :=
  [{ wid := 1, userId := "u", suggestion := "older tip", isConsumed := false, createdAt := 10 },
   { wid := 2, userId := "u", suggestion := "newer tip", isConsumed := false, createdAt := 20 }]

/-- A whisper table with a single unconsumed suggestion. -/
def whisperOne : List WhisperRow :=
  [{ wid := 1, userId := "u", suggestion := "tip", isConsumed := false, createdAt := 10 }]

/-- The row of `whisperOne`. -/
def whisperOneRow : WhisperRow :=
  { wid := 1, userId := "u", suggestion := "tip", isConsumed := false, createdAt := 10 }

/-- An empty focus table. -/
def focusStart : FocusDB := { rows := [], nextId := 1 }

/-- One extracted `recent_focus` item carrying an `expected_date`. -/
def focusItems1 : List RecentFocusItem :=
  [{ content := "interview", evidence := "ev", expectedDate := some 5 }]

/-- The row the background pipeline inserts for `focusItems1`. -/
def insertedFocusRow : FocusRow :=
  { fid := 1, userId := "u", content := "interview", status := "active",
    expectedDate := none, createdAt := 30, updatedAt := 30, lastInjectedAt := none }

/-- An adjudication oracle answering a fixed merged value. -/
def mergedOracle : MergeOracle := fun _ _ _ => some "MERGED"

/-- A profile holding an old value in an `llm_judge` slot. -/
def judgeSlots : Slots := [("emotional_baseline", .vs "old")]

/-- A batch update targeting that `llm_judge` slot. -/
def judgeUpdate : List SlotUpdate := [{ slot := some "emotional_baseline", value := some (.vs "new") }]

/-- The turn state before a failing chat call: one pending whisper, no
context row, empty chat log. -/
def turnStart : TurnState :=
  { whispers := whisperOne, ctx := none, chatLog := [] }

/-- A current non-`MENTIONS` edge. -/
def likesEdge : EdgeRec :=
  { subject := "user", relation := "LIKES", obj := "apple", fact := "user likes apples",
    validAt := some "2026-01-01T00:00:00", invalidAt := none, createdAt := some "2026-01-01T00:00:00" }

/-- A `MENTIONS` metadata edge. -/
def mentionsEdge : EdgeRec :=
  { subject := "episode", relation := "MENTIONS", obj := "user", fact := "",
    validAt := none, invalidAt := none, createdAt := some "2026-01-01T00:00:00" }

/-! # Theorems -/

/-! ### Focus visibility (C1) and background focus insertion (C10) -/

theorem mem_insertByCreatedDesc (f g : FocusRow) (l : List FocusRow) :
    g ∈ insertByCreatedDesc f l ↔ g = f ∨ g ∈ l := by
  induction l with
  | nil => simp [insertByCreatedDesc]
  | cons x xs ih =>
    by_cases h : x.createdAt ≤ f.createdAt
    · simp [insertByCreatedDesc, h]
    · simp [insertByCreatedDesc, h, ih]
      tauto

theorem mem_sortByCreatedDesc (g : FocusRow) (l : List FocusRow) :
    g ∈ sortByCreatedDesc l ↔ g ∈ l := by
  induction l with
  | nil => simp [sortByCreatedDesc]
  | cons x xs ih => simp [sortByCreatedDesc, mem_insertByCreatedDesc, ih]

theorem isExpired_eq_false (today : Nat) (f : FocusRow) :
    isExpired today f = false ↔
      ¬ ((∃ d, f.expectedDate = some d ∧ today > d + 1) ∨
         (f.expectedDate = none ∧ today > dayOf f.createdAt + DEFAULT_FOCUS_TTL_DAYS)) := by
  cases h : f.expectedDate <;> simp [isExpired, h]

theorem inCooldown_eq_false (now : Nat) (f : FocusRow) :
    inCooldown now f = false ↔
      ¬ (∃ t, f.lastInjectedAt = some t ∧ now < t + INJECTION_COOLDOWN_HOURS * minutesPerHour) := by
  cases h : f.lastInjectedAt <;> simp [inCooldown, h]

/-- C1: a focus row is returned by `get_active_focus_with_time(u)` iff it
belongs to the user, has status `active`, is not expired (an
`expected_date` more than one day in the past, or, without an
`expected_date`, a creation date more than 14 days in the past), and is
not in cooldown (`now < last_injected_at + 12h`). -/
theorem getActiveFocusRows_mem_iff (db : List FocusRow) (u : String) (now : Nat) (f : FocusRow) :
    f ∈ getActiveFocusRows db u now ↔
      f ∈ db ∧ f.userId = u ∧ f.status = "active" ∧
      ¬ ((∃ d, f.expectedDate = some d ∧ dayOf now > d + 1) ∨
         (f.expectedDate = none ∧ dayOf now > dayOf f.createdAt + DEFAULT_FOCUS_TTL_DAYS)) ∧
      ¬ (∃ t, f.lastInjectedAt = some t ∧ now < t + INJECTION_COOLDOWN_HOURS * minutesPerHour) := by
  unfold getActiveFocusRows activeRowsSorted
  rw [List.mem_filter, mem_sortByCreatedDesc, List.mem_filter]
  rw [Bool.and_eq_true, Bool.and_eq_true, Bool.not_eq_true', Bool.not_eq_true']
  rw [isExpired_eq_false, inCooldown_eq_false]
  simp only [beq_iff_eq]
  tauto

theorem addFocus_none_expectedDate (p : Nat → Prop) (st : FocusDB) (u c : String) (now : Nat)
    (h : ∀ g ∈ st.rows, ¬ p g.fid → g.expectedDate = none) :
    ∀ g ∈ (addFocus st u c none now).rows, ¬ p g.fid → g.expectedDate = none := by
  unfold addFocus
  cases hf : st.rows.filter (fun f => f.userId == u && f.content == c && f.status == "active") with
  | nil =>
    intro g hg hp
    simp only [List.mem_append, List.mem_singleton] at hg
    rcases hg with hg | hg
    · exact h g hg hp
    · subst hg; rfl
  | cons f rest =>
    intro g hg hp
    simp only [List.mem_map] at hg
    obtain ⟨r, hr, hrg⟩ := hg
    by_cases he : r.fid == f.fid
    · simp only [he, if_true] at hrg
      subst hrg
      exact h r hr hp
    · simp only [he, if_false] at hrg
      subst hrg
      exact h r hr hp

theorem bgAddFocus_expectedDate (p : Nat → Prop) (st : FocusDB) (u : String) (now : Nat)
    (items : List RecentFocusItem)
    (h : ∀ g ∈ st.rows, ¬ p g.fid → g.expectedDate = none) :
    ∀ g ∈ (bgAddFocus st u now items).rows, ¬ p g.fid → g.expectedDate = none := by
  induction items generalizing st with
  | nil => exact h
  | cons it rest ih =>
    exact ih (addFocus st u it.content none now)
      (addFocus_none_expectedDate p st u it.content now h)

/-- C10: every focus row inserted by the background pipeline of
`_process_chat_background` — a row whose id is fresh with respect to the
prior table — has `expected_date = null`, even though the extraction items
carry one; consequently its expiry test is exactly the 14-day TTL rule and
never the `expected_date + 1 day` deadline rule. -/
theorem bgAddFocus_inserts_without_deadline (st : FocusDB) (u : String) (now : Nat)
    (items : List RecentFocusItem) (f : FocusRow)
    (hf : f ∈ (bgAddFocus st u now items).rows)
    (hnew : ∀ g ∈ st.rows, g.fid ≠ f.fid) :
    f.expectedDate = none ∧
    ∀ today, isExpired today f =
      decide (today > dayOf f.createdAt + DEFAULT_FOCUS_TTL_DAYS) := by
  have hbase : ∀ g ∈ st.rows, ¬ (∃ g' ∈ st.rows, g'.fid = g.fid) → g.expectedDate = none := by
    intro g hg hp
    exact absurd ⟨g, hg, rfl⟩ hp
  have hnone : f.expectedDate = none := by
    refine bgAddFocus_expectedDate (fun i => ∃ g ∈ st.rows, g.fid = i) st u now items hbase f hf ?_
    rintro ⟨g, hg, hgf⟩
    exact hnew g hg hgf
  refine ⟨hnone, fun today => ?_⟩
  simp [isExpired, hnone]

/-! ### Whisper consumption (C4) -/

theorem pickNewer_foldl_mem (l : List WhisperRow) (acc : Option WhisperRow) (r : WhisperRow)
    (h : l.foldl pickNewer acc = some r) : acc = some r ∨ r ∈ l := by
  induction l generalizing acc with
  | nil => exact .inl h
  | cons x xs ih =>
    rw [List.foldl_cons] at h
    rcases ih _ h with hacc | hmem
    · cases hb : acc with
      | none =>
        rw [hb] at hacc
        simp only [pickNewer] at hacc
        injection hacc with h'
        right; rw [← h']; exact List.mem_cons_self x xs
      | some b =>
        rw [hb] at hacc
        simp only [pickNewer] at hacc
        by_cases hlt : b.createdAt < x.createdAt
        · rw [if_pos hlt] at hacc
          injection hacc with h'
          right; rw [← h']; exact List.mem_cons_self x xs
        · rw [if_neg hlt] at hacc
          exact .inl hacc
    · exact .inr (List.mem_cons_of_mem x hmem)

theorem newestUnconsumed_mem (db : List WhisperRow) (u : String) (r : WhisperRow)
    (h : newestUnconsumed db u = some r) : r ∈ unconsumedFor db u := by
  unfold newestUnconsumed at h
  rcases pickNewer_foldl_mem _ none r h with hacc | hmem
  · exact absurd hacc (by simp)
  · exact hmem

theorem getLatestWhisper_of_none (db : List WhisperRow) (u : String)
    (h : newestUnconsumed db u = none) : (getLatestWhisper db u).1 = none := by
  simp [getLatestWhisper, h]

theorem eq_singleton_of_length_le_one {α : Type} (l : List α) (a : α)
    (h1 : l.length ≤ 1) (h2 : a ∈ l) : l = [a] := by
  cases l with
  | nil => cases h2
  | cons x xs =>
    cases xs with
    | nil =>
      rcases List.mem_singleton.mp h2 with h
      rw [h]
    | cons y ys => simp at h1

/-- C4 (amended): `get_latest_whisper` returns the newest unconsumed
suggestion of the user and marks exactly the rows carrying that id
consumed; when at most one unconsumed row exists for the user, a second
consume with no intervening save returns `none`. (The unamended claim
fails when older unconsumed rows exist: see the counterexample.) -/
theorem getLatestWhisper_consumes (db : List WhisperRow) (u : String) :
    (∀ r, newestUnconsumed db u = some r →
      (getLatestWhisper db u).1 = some r.suggestion ∧
      (getLatestWhisper db u).2 =
        db.map (fun x => if x.wid == r.wid then { x with isConsumed := true } else x) ∧
      ((unconsumedFor db u).length ≤ 1 →
        (getLatestWhisper (getLatestWhisper db u).2 u).1 = none)) ∧
    (newestUnconsumed db u = none →
      (getLatestWhisper db u).1 = none ∧ (getLatestWhisper db u).2 = db) := by
  constructor
  · intro r hr
    refine ⟨by simp [getLatestWhisper, hr], by simp [getLatestWhisper, hr], ?_⟩
    intro hle
    have hmem : r ∈ unconsumedFor db u := newestUnconsumed_mem db u r hr
    have hsing : unconsumedFor db u = [r] := eq_singleton_of_length_le_one _ r hle hmem
    have hempty : unconsumedFor (getLatestWhisper db u).2 u = [] := by
      unfold unconsumedFor
      rw [List.filter_eq_nil_iff]
      intro x hx
      simp only [getLatestWhisper, hr, List.mem_map] at hx
      obtain ⟨y, hy, hyx⟩ := hx
      by_cases hw : y.wid == r.wid
      · rw [if_pos hw] at hyx
        subst hyx
        simp
      · rw [if_neg hw] at hyx
        subst hyx
        intro hp
        have : y ∈ unconsumedFor db u := List.mem_filter.mpr ⟨hy, hp⟩
        rw [hsing, List.mem_singleton] at this
        subst this
        simp at hw
    have hnu : newestUnconsumed (getLatestWhisper db u).2 u = none := by
      unfold newestUnconsumed
      rw [hempty]
      rfl
    exact getLatestWhisper_of_none _ _ hnu
  · intro h
    exact ⟨by simp [getLatestWhisper, h], by simp [getLatestWhisper, h]⟩

/-- C4 witness: on a queue holding exactly one unconsumed suggestion, the
first consume returns it and the second returns `none`. -/
theorem getLatestWhisper_consumes_witness :
    (getLatestWhisper whisperOne "u").1 = some "tip" ∧
    (getLatestWhisper (getLatestWhisper whisperOne "u").2 "u").1 = none := by
  have h := (getLatestWhisper_consumes whisperOne "u").1 whisperOneRow (by decide)
  exact ⟨h.1, h.2.2 (by decide)⟩

/-- C4 counterexample: with two unconsumed suggestions, the second of two
successive consume calls returns the older suggestion, not `none` — the
claim's `(text, null)` sequence fails. -/
theorem getLatestWhisper_double_consume_cex :
    (getLatestWhisper whisperTwo "u").1 = some "newer tip" ∧
    (getLatestWhisper (getLatestWhisper whisperTwo "u").2 "u").1 = some "older tip" ∧
    (getLatestWhisper (getLatestWhisper whisperTwo "u").2 "u").1 ≠ none := by
  refine ⟨by decide, by decide, by decide⟩

/-- C10 witness: on an empty table, the pipeline inserts the extracted
item — which carried `expected_date = some 5` — as a row with
`expected_date = null`, whose expiry at a sample date is the TTL test. -/
theorem bgAddFocus_inserts_without_deadline_witness :
    insertedFocusRow.expectedDate = none ∧
    isExpired 20 insertedFocusRow =
      decide (20 > dayOf insertedFocusRow.createdAt + DEFAULT_FOCUS_TTL_DAYS) := by
  have h := bgAddFocus_inserts_without_deadline focusStart "u" 30 focusItems1 insertedFocusRow
    (by decide) (by decide)
  exact ⟨h.1, h.2 20⟩

/-! ### Context bound and compaction (C2), session expiry (C3) -/

theorem sessionStep_recent (now : Nat) (r : CtxRow) : (sessionStep now r).recent = r.recent := by
  unfold sessionStep
  split <;> rfl

theorem sessionStep_summary_of_expired (now : Nat) (r : CtxRow)
    (hsum : r.summary ≠ "") (hexp : SESSION_TIMEOUT_MINUTES < now - r.updatedAt) :
    sessionStep now r = { r with summary := "" } := by
  unfold sessionStep
  rw [if_pos ⟨hsum, hexp⟩]

/-- C2 (amended): provided the summarizer chat call succeeds, the row
stored after any `get_context` call satisfies
`⌊len(recent)/2⌋ < max_history_rounds`; when the call found the bound
violated it compacts, storing the oracle's summary in place of the old one
and retaining exactly the last two messages. (Without the success proviso
the bound fails: see the counterexample.) -/
theorem getContext_bound (oracle : SummOracle) (now : Nat) (row : Option CtxRow)
    (hok : ∀ c m, (oracle c m).isSome) (r2 : CtxRow)
    (h2 : (getContext oracle now row).2 = some r2) :
    r2.recent.length / 2 < MAX_HISTORY_ROUNDS ∧
    (∀ r, row = some r → MAX_HISTORY_ROUNDS ≤ r.recent.length / 2 →
      ∃ s, oracle (sessionStep now r).summary r.recent = some s ∧
        r2 = { summary := s, recent := r.recent.drop (r.recent.length - 2), updatedAt := now }) := by
  cases row with
  | none => simp [getContext] at h2
  | some r =>
    have h2' : r2 = compactStep oracle now (sessionStep now r) := by
      simpa [getContext] using h2.symm
    by_cases htrig : MAX_HISTORY_ROUNDS ≤ r.recent.length / 2
    · obtain ⟨s, hs⟩ := Option.isSome_iff_exists.mp (hok (sessionStep now r).summary r.recent)
      have hlen : 100 ≤ r.recent.length := by
        have := (Nat.le_div_iff_mul_le (by norm_num : 0 < 2)).mp htrig
        simpa [MAX_HISTORY_ROUNDS] using this
      have h2le : 2 ≤ r.recent.length := by omega
      have hr2 : r2 =
          { summary := s, recent := r.recent.drop (r.recent.length - 2), updatedAt := now } := by
        rw [h2']
        unfold compactStep
        rw [sessionStep_recent, if_pos htrig]
        unfold summarize
        rw [hs]
        simp [h2le]
      constructor
      · rw [hr2]
        simp only [List.length_drop]
        have : r.recent.length - (r.recent.length - 2) = 2 := by omega
        rw [this]
        simp [MAX_HISTORY_ROUNDS]
      · intro r' hr' _
        injection hr' with hrr
        subst hrr
        exact ⟨s, hs, hr2⟩
    · have hr2 : r2 = sessionStep now r := by
        rw [h2']
        unfold compactStep
        rw [sessionStep_recent, if_neg htrig]
      constructor
      · rw [hr2, sessionStep_recent]
        omega
      · intro r' hr' htrig'
        injection hr' with hrr
        subst hrr
        exact absurd htrig' htrig

/-- C2 witness: a row of fifty full rounds is compacted by a successful
summarizer down to the last two messages, restoring the bound. -/
theorem getContext_bound_witness :
    ({ summary := "S", recent := List.replicate 2 { role := "user", content := "hi" },
       updatedAt := 7 } : CtxRow).recent.length / 2 < MAX_HISTORY_ROUNDS :=
  (getContext_bound okSummarizer 7 (some row100) (fun _ _ => rfl) _ rfl).1

/-- C2 counterexample: when the summarizer call raises, `get_context`
still returns, but the stored recent list keeps all one hundred messages,
so `⌊len(recent)/2⌋ < 50` fails immediately after a returned call. -/
theorem getContext_bound_cex :
    (getContext failSummarizer 10 (some row100)).2 =
      some { summary := "", recent := List.replicate 100 { role := "user", content := "hi" },
             updatedAt := 10 } ∧
    ¬ ((List.replicate 100 ({ role := "user", content := "hi" } : Msg)).length / 2
        < MAX_HISTORY_ROUNDS) := by
  exact ⟨rfl, by decide⟩

/-- C3: with a non-empty summary read more than three hours after
`updated_at`, the session rule clears the summary — persisting the cleared
row with `recent` and `updated_at` untouched — before the compaction check
runs; in particular, if compaction is not triggered, the call returns the
empty summary and stores the row with only the summary cleared. -/
theorem getContext_session_expiry (oracle : SummOracle) (now : Nat) (r : CtxRow)
    (hsum : r.summary ≠ "") (hexp : SESSION_TIMEOUT_MINUTES < now - r.updatedAt) :
    sessionStep now r = { r with summary := "" } ∧
    (sessionStep now r).recent = r.recent ∧
    (sessionStep now r).updatedAt = r.updatedAt ∧
    (getContext oracle now (some r)).2 = some (compactStep oracle now (sessionStep now r)) ∧
    (r.recent.length / 2 < MAX_HISTORY_ROUNDS →
      (getContext oracle now (some r)).1.summary = "" ∧
      (getContext oracle now (some r)).2 = some { r with summary := "" }) := by
  have h1 := sessionStep_summary_of_expired now r hsum hexp
  refine ⟨h1, by rw [h1], by rw [h1], rfl, ?_⟩
  intro hlt
  have h2 : compactStep oracle now (sessionStep now r) = { r with summary := "" } := by
    rw [h1]
    unfold compactStep
    rw [if_neg (by simpa using Nat.not_le.mpr hlt)]
  constructor
  · show (compactStep oracle now (sessionStep now r)).summary = ""
    rw [h2]
  · show some (compactStep oracle now (sessionStep now r)) = _
    rw [h2]

/-- C3 witness: a stale two-message row read 200 minutes after
`updated_at = 0` comes back with its summary cleared and its history
intact. -/
theorem getContext_session_expiry_witness :
    (getContext okSummarizer 200 (some staleRow)).1.summary = "" ∧
    (getContext okSummarizer 200 (some staleRow)).2 = some { staleRow with summary := "" } :=
  (getContext_session_expiry okSummarizer 200 staleRow (by decide) (by decide)).2.2.2.2 (by decide)

/-! ### Profile store: association-list and append-merge lemmas -/

theorem getSlot_setSlot_self (s : Slots) (k : String) (v : Val) :
    getSlot (setSlot s k v) k = some v := by
  induction s with
  | nil => simp [setSlot, getSlot]
  | cons p rest ih =>
    by_cases hp : p.1 == k
    · simp [setSlot, getSlot, hp]
    · simp [setSlot, getSlot, hp, ih]

theorem getSlot_setSlot_ne (s : Slots) (k k' : String) (v : Val) (h : (k' == k) = false) :
    getSlot (setSlot s k' v) k = getSlot s k := by
  induction s with
  | nil => simp [setSlot, getSlot, h]
  | cons p rest ih =>
    by_cases hp : p.1 == k'
    · have hp' : p.1 = k' := by simpa using hp
      have hk : (p.1 == k) = false := by
        rw [hp']
        exact h
      simp [setSlot, getSlot, hp, h, hk]
    · simp only [setSlot, hp, if_false]
      by_cases hq : p.1 == k
      · simp [getSlot, hq]
      · simp [getSlot, hq, ih]

theorem appMergeCount_fst (l : List String) (v : Val) :
    (appMergeCount l v).1 = appMerge l v := by
  cases v with
  | vs x =>
    by_cases hx : x ∈ l <;> simp [appMergeCount, appMerge, insElem, hx]
  | vl xs =>
    show (xs.foldl _ (l, 0)).1 = xs.foldl insElem l
    suffices h : ∀ (xs : List String) (l : List String) (n : Nat),
        (xs.foldl (fun p x => if x ∈ p.1 then p else (p.1 ++ [x], p.2 + 1)) (l, n)).1 =
          xs.foldl insElem l by
      exact h xs l 0
    intro xs
    induction xs with
    | nil => intro l n; rfl
    | cons x rest ih =>
      intro l n
      by_cases hx : x ∈ l <;> simp [insElem, hx, ih]

theorem mem_insElem_of_mem (l : List String) (x y : String) (h : y ∈ l) : y ∈ insElem l x := by
  unfold insElem
  split
  · exact h
  · exact List.mem_append_left _ h

theorem mem_insElem_self (l : List String) (x : String) : x ∈ insElem l x := by
  unfold insElem
  split
  · assumption
  · simp

theorem mem_appMerge_of_mem (l : List String) (v : Val) (y : String) (h : y ∈ l) :
    y ∈ appMerge l v := by
  cases v with
  | vs x => exact mem_insElem_of_mem l x y h
  | vl xs =>
    show y ∈ xs.foldl insElem l
    induction xs generalizing l with
    | nil => exact h
    | cons x rest ih => exact ih (insElem l x) (mem_insElem_of_mem l x y h)

theorem mem_foldl_insElem_of_mem (xs l : List String) (y : String) (h : y ∈ l) :
    y ∈ xs.foldl insElem l := by
  induction xs generalizing l with
  | nil => exact h
  | cons x rest ih => exact ih (insElem l x) (mem_insElem_of_mem l x y h)

theorem mem_foldl_insElem_of_elem (xs : List String) (y : String) (hy : y ∈ xs) :
    ∀ l, y ∈ xs.foldl insElem l := by
  induction xs with
  | nil => cases hy
  | cons x rest ih =>
    intro l
    rw [List.foldl_cons]
    rcases List.mem_cons.mp hy with h | h
    · subst h
      exact mem_foldl_insElem_of_mem rest _ y (mem_insElem_self l y)
    · exact ih h (insElem l x)

theorem mem_appMerge_of_elem (l : List String) (v : Val) (y : String) (h : y ∈ elems v) :
    y ∈ appMerge l v := by
  cases v with
  | vs x =>
    rw [List.mem_singleton.mp h]
    exact mem_insElem_self l x
  | vl xs => exact mem_foldl_insElem_of_elem xs y h l

theorem appMerge_absorb (l : List String) (v : Val) (h : ∀ y ∈ elems v, y ∈ l) :
    appMerge l v = l := by
  cases v with
  | vs x =>
    have := h x (List.mem_singleton_self x)
    simp [appMerge, insElem, this]
  | vl xs =>
    show xs.foldl insElem l = l
    induction xs with
    | nil => rfl
    | cons x rest ih =>
      have hx : x ∈ l := h x (List.mem_cons_self x rest)
      have hstep : insElem l x = l := by simp [insElem, hx]
      rw [List.foldl_cons, hstep]
      exact ih (fun y hy => h y (List.mem_cons_of_mem x hy))

theorem foldl_appMerge_absorb (vs : List Val) (l : List String)
    (h : ∀ v ∈ vs, ∀ y ∈ elems v, y ∈ l) : vs.foldl appMerge l = l := by
  induction vs with
  | nil => rfl
  | cons v rest ih =>
    have hv : appMerge l v = l := appMerge_absorb l v (h v (List.mem_cons_self v rest))
    rw [List.foldl_cons, hv]
    exact ih (fun v' hv' => h v' (List.mem_cons_of_mem v hv'))

theorem mem_foldl_appMerge_of_mem (vs : List Val) (l : List String) (y : String) (h : y ∈ l) :
    y ∈ vs.foldl appMerge l := by
  induction vs generalizing l with
  | nil => exact h
  | cons v rest ih =>
    rw [List.foldl_cons]
    exact ih (appMerge l v) (mem_appMerge_of_mem l v y h)

theorem elem_mem_foldl_appMerge (vs : List Val) :
    ∀ v ∈ vs, ∀ y ∈ elems v, ∀ l, y ∈ vs.foldl appMerge l := by
  induction vs with
  | nil => intro v hv; cases hv
  | cons w rest ih =>
    intro v hv y hy l
    rw [List.foldl_cons]
    rcases List.mem_cons.mp hv with hvw | hvr
    · subst hvw
      exact mem_foldl_appMerge_of_mem rest _ y (mem_appMerge_of_elem l v y hy)
    · exact ih v hvr y hy (appMerge l w)

theorem foldl_appMerge_idem (vs : List Val) (l : List String) :
    vs.foldl appMerge (vs.foldl appMerge l) = vs.foldl appMerge l :=
  foldl_appMerge_absorb vs _ (fun v hv y hy => elem_mem_foldl_appMerge vs v hv y hy l)

/-! ### Profile store: localizing the `batch_update` fold to one key -/

theorem valStep_const (st : Strategy) (hst : st ≠ .append) (c : Option Val) (v : Val) :
    valStep st c v = some v := by
  cases st with
  | append => exact absurd rfl hst
  | replace => rfl
  | llmJudge => rfl

theorem foldl_valStep_append (vs : List Val) (L : List String) :
    vs.foldl (valStep .append) (some (.vl L)) = some (.vl (vs.foldl appMerge L)) := by
  induction vs generalizing L with
  | nil => rfl
  | cons v rest ih =>
    rw [List.foldl_cons, List.foldl_cons]
    show rest.foldl (valStep .append) (some (.vl (appMerge L v))) = _
    exact ih (appMerge L v)

theorem foldl_valStep_idem (st : Strategy) (vs : List Val) (c : Option Val) :
    vs.foldl (valStep st) (vs.foldl (valStep st) c) = vs.foldl (valStep st) c := by
  cases vs with
  | nil => rfl
  | cons v rest =>
    by_cases hst : st = .append
    · subst hst
      have h1 : (v :: rest).foldl (valStep .append) c =
          some (.vl ((v :: rest).foldl appMerge (normList c))) := by
        rw [List.foldl_cons, List.foldl_cons]
        show rest.foldl (valStep .append) (some (.vl (appMerge (normList c) v))) = _
        exact foldl_valStep_append rest (appMerge (normList c) v)
      rw [h1, foldl_valStep_append]
      have h2 : (v :: rest).foldl appMerge ((v :: rest).foldl appMerge (normList c)) =
          (v :: rest).foldl appMerge (normList c) := foldl_appMerge_idem (v :: rest) (normList c)
      rw [h2]
    · rw [List.foldl_cons, List.foldl_cons, valStep_const st hst c v,
        valStep_const st hst _ v]

theorem batchStep_fst (s : Slots) (n : Nat) (u : SlotUpdate) :
    (batchStep (s, n) u).1 = slotStep s u := by
  unfold slotStep batchStep
  cases u.value with
  | none => rfl
  | some v =>
    by_cases he : emptyVal v
    · simp [he]
    · simp only [he, Bool.false_eq_true, if_false]
      cases u.slot with
      | none => rfl
      | some k =>
        by_cases hk : k == ""
        · simp [hk]
        · simp only [hk, Bool.false_eq_true, if_false]
          cases strategyOf k with
          | none => rfl
          | some st =>
            cases st with
            | append => rfl
            | replace =>
              by_cases hg : getSlot s k == some v <;> simp [hg]
            | llmJudge =>
              by_cases hg : getSlot s k == some v <;> simp [hg]

theorem batchUpdateFold_fst (us : List SlotUpdate) (s : Slots) (n : Nat) :
    (us.foldl batchStep (s, n)).1 = us.foldl slotStep s := by
  induction us generalizing s n with
  | nil => rfl
  | cons u rest ih =>
    have hpair : batchStep (s, n) u = (slotStep s u, (batchStep (s, n) u).2) := by
      rw [← batchStep_fst s n u]
    rw [List.foldl_cons, List.foldl_cons, hpair]
    exact ih (slotStep s u) (batchStep (s, n) u).2

theorem stratD_of_strategyOf (k : String) (st : Strategy) (h : strategyOf k = some st) :
    stratD k = st := by
  unfold stratD
  rw [h]
  rfl

theorem getSlot_slotStep_hit (s : Slots) (u : SlotUpdate) (k : String) (v : Val) (st : Strategy)
    (hv : u.value = some v) (he : emptyVal v = false) (hs : u.slot = some k)
    (hke : (k == "") = false) (hst : strategyOf k = some st) :
    getSlot (slotStep s u) k = valStep st (getSlot s k) v := by
  unfold slotStep batchStep
  rw [hv]
  simp only [he, Bool.false_eq_true, if_false]
  rw [hs]
  simp only [hke, Bool.false_eq_true, if_false]
  rw [hst]
  cases st with
  | append =>
    show getSlot (setSlot s k (.vl (appMergeCount (normList (getSlot s k)) v).1)) k = _
    rw [getSlot_setSlot_self, appMergeCount_fst]
    rfl
  | replace =>
    by_cases hg : getSlot s k == some v
    · simp only [hg, if_true]
      show getSlot s k = valStep .replace (getSlot s k) v
      rw [show getSlot s k = some v from by simpa using hg]
      rfl
    · simp only [hg, Bool.false_eq_true, if_false]
      show getSlot (setSlot s k v) k = _
      rw [getSlot_setSlot_self]
      rfl
  | llmJudge =>
    by_cases hg : getSlot s k == some v
    · simp only [hg, if_true]
      show getSlot s k = valStep .llmJudge (getSlot s k) v
      rw [show getSlot s k = some v from by simpa using hg]
      rfl
    · simp only [hg, Bool.false_eq_true, if_false]
      show getSlot (setSlot s k v) k = _
      rw [getSlot_setSlot_self]
      rfl

theorem getSlot_slotStep_other (s : Slots) (u : SlotUpdate) (k : String)
    (h : ∀ k', u.slot = some k' → (k' == k) = false) :
    getSlot (slotStep s u) k = getSlot s k := by
  unfold slotStep batchStep
  cases hv : u.value with
  | none => rfl
  | some v =>
    by_cases he : emptyVal v
    · simp [he]
    · simp only [he, Bool.false_eq_true, if_false]
      cases hs : u.slot with
      | none => rfl
      | some k' =>
        have hk' := h k' hs
        by_cases hke : k' == ""
        · simp [hke]
        · simp only [hke, Bool.false_eq_true, if_false]
          cases strategyOf k' with
          | none => rfl
          | some st =>
            cases st with
            | append => exact getSlot_setSlot_ne s k k' _ hk'
            | replace =>
              by_cases hg : getSlot s k' == some v
              · simp [hg]
              · simp only [hg, Bool.false_eq_true, if_false]
                exact getSlot_setSlot_ne s k k' _ hk'
            | llmJudge =>
              by_cases hg : getSlot s k' == some v
              · simp [hg]
              · simp only [hg, Bool.false_eq_true, if_false]
                exact getSlot_setSlot_ne s k k' _ hk'

theorem keyVals_cons (k : String) (u : SlotUpdate) (rest : List SlotUpdate) :
    keyVals k (u :: rest) =
      (match u.value with
       | none => keyVals k rest
       | some v =>
         if emptyVal v then keyVals k rest
         else
           match u.slot with
           | none => keyVals k rest
           | some k' =>
             if k' == "" then keyVals k rest
             else
               match strategyOf k' with
               | none => keyVals k rest
               | some _ => if k' == k then v :: keyVals k rest else keyVals k rest) := by
  unfold keyVals
  rw [List.filterMap_cons]
  cases u.value with
  | none => rfl
  | some v =>
    by_cases he : emptyVal v
    · simp [he]
    · simp only [he, Bool.false_eq_true, if_false]
      cases u.slot with
      | none => rfl
      | some k' =>
        by_cases hke : k' == ""
        · simp [hke]
        · simp only [hke, Bool.false_eq_true, if_false]
          cases strategyOf k' with
          | none => rfl
          | some st =>
            by_cases hkk : k' == k
            · simp [hkk]
            · simp [hkk]

theorem getSlot_foldl_slotStep (us : List SlotUpdate) (s : Slots) (k : String) :
    getSlot (us.foldl slotStep s) k =
      (keyVals k us).foldl (valStep (stratD k)) (getSlot s k) := by
  induction us generalizing s with
  | nil => rfl
  | cons u rest ih =>
    rw [List.foldl_cons, keyVals_cons]
    cases hv : u.value with
    | none =>
      have hskip : slotStep s u = s := by
        unfold slotStep batchStep
        rw [hv]
      rw [hskip]
      exact ih s
    | some v =>
      by_cases he : emptyVal v
      · have hskip : slotStep s u = s := by
          unfold slotStep batchStep
          rw [hv]
          simp [he]
        simp only [he, if_true]
        rw [hskip]
        exact ih s
      · simp only [he, Bool.false_eq_true, if_false]
        cases hs : u.slot with
        | none =>
          have hskip : slotStep s u = s := by
            unfold slotStep batchStep
            rw [hv]
            simp only [he, Bool.false_eq_true, if_false]
            rw [hs]
          rw [hskip]
          exact ih s
        | some k' =>
          by_cases hke : k' == ""
          · have hskip : slotStep s u = s := by
              unfold slotStep batchStep
              rw [hv]
              simp only [he, Bool.false_eq_true, if_false]
              rw [hs]
              simp [hke]
            simp only [hke, if_true]
            rw [hskip]
            exact ih s
          · simp only [hke, Bool.false_eq_true, if_false]
            cases hst : strategyOf k' with
            | none =>
              have hskip : slotStep s u = s := by
                unfold slotStep batchStep
                rw [hv]
                simp only [he, Bool.false_eq_true, if_false]
                rw [hs]
                simp only [hke, Bool.false_eq_true, if_false]
                rw [hst]
              rw [hskip]
              exact ih s
            | some st =>
              have he' : emptyVal v = false := by simpa using he
              have hke' : (k' == "") = false := by simpa using hke
              by_cases hkk : k' == k
              · have hkeq : k' = k := by simpa using hkk
                subst hkeq
                simp only [hkk, if_true]
                rw [List.foldl_cons, ih (slotStep s u),
                  getSlot_slotStep_hit s u k' v st hv he' hs hke' hst,
                  stratD_of_strategyOf k' st hst]
              · simp only [hkk, Bool.false_eq_true, if_false]
                have hother : getSlot (slotStep s u) k = getSlot s k := by
                  refine getSlot_slotStep_other s u k ?_
                  intro k'' h
                  rw [hs] at h
                  injection h with h'
                  subst h'
                  simpa using hkk
                rw [ih (slotStep s u), hother]

/-- C8: applying the same `batch_update` list twice leaves the persisted
profile dictionary equal (slot by slot, which is Python dict equality) to
its state after the first call: replace-strategy slots settle on the
batch's last value and append-strategy slots deduplicate on exact string
equality, so the second pass changes nothing. -/
theorem batchUpdate_idempotent (s : Slots) (us : List SlotUpdate) (k : String) :
    getSlot (batchUpdate (batchUpdate s us) us) k = getSlot (batchUpdate s us) k := by
  unfold batchUpdate
  by_cases h1 : 0 < (batchUpdateFold s us).2
  · rw [if_pos h1]
    by_cases h2 : 0 < (batchUpdateFold (batchUpdateFold s us).1 us).2
    · rw [if_pos h2]
      unfold batchUpdateFold
      rw [batchUpdateFold_fst, batchUpdateFold_fst, getSlot_foldl_slotStep,
        getSlot_foldl_slotStep]
      exact foldl_valStep_idem (stratD k) (keyVals k us) (getSlot s k)
    · rw [if_neg h2]
  · rw [if_neg h1, if_neg h1]

/-! ### Empty-value persistence (C5) and adjudication in `batch_update` (C6) -/

/-- C5 (code-bug evidence): `update_slot` and the `extract_slots` merge
path perform no empty-value filtering, so the empty string — which the
`batch_update` filter itself classifies as empty — is persisted into the
slot table by both; the claimed invariant holds only for `batch_update`. -/
theorem emptyValue_persisted :
    emptyVal (.vs "") = true ∧
    updateSlot [] "nickname" (.vs "") = some [("nickname", Val.vs "")] ∧
    getSlot [("nickname", Val.vs "")] "nickname" = some (Val.vs "") ∧
    mergeSlots (fun _ _ _ => none) [] [("nickname", .vs "")] = [("nickname", Val.vs "")] := by
  refine ⟨by decide, by decide, by decide, by decide⟩

/-- C6 counterexample: on an `llm_judge` slot holding an old value,
`batch_update` stores the new value outright, while the behaviour the
claim describes — adjudicate via the gateway, here an oracle answering
`MERGED` — stores the adjudicated value; the two results differ, so
`batch_update` does not apply the adjudicate strategy. -/
theorem batchUpdate_no_adjudication_cex :
    strategyOf "emotional_baseline" = some .llmJudge ∧
    batchUpdate judgeSlots judgeUpdate = [("emotional_baseline", Val.vs "new")] ∧
    specAdjudicateStep mergedOracle judgeSlots "emotional_baseline" (.vs "new") =
      [("emotional_baseline", Val.vs "MERGED")] ∧
    batchUpdate judgeSlots judgeUpdate ≠
      specAdjudicateStep mergedOracle judgeSlots "emotional_baseline" (.vs "new") := by
  refine ⟨rfl, by decide, by decide, by decide⟩

/-- C6 (amended): for a slot with merge strategy `llm_judge` that already
holds an old value, `batch_update` applies plain replace semantics — no
gateway call, the result is independent of any oracle — while the gateway
adjudication with parse-failure fallback to the new value is applied only
on the `extract_slots` merge path (`_merge_slots` via `_llm_merge`). -/
theorem batchUpdate_llmJudge_replace (s : Slots) (k : String) (v old : Val)
    (oracle : MergeOracle) (hstrat : strategyOf k = some .llmJudge) (hk : (k == "") = false)
    (hv : emptyVal v = false) (hold : getSlot s k = some old) :
    batchUpdate s [{ slot := some k, value := some v }] =
      (if old = v then s else setSlot s k v) ∧
    mergeSlots oracle s [(k, v)] =
      (if Val.vs (llmMerge oracle k (pyStr old) (pyStr v)) = old then s
       else setSlot s k (.vs (llmMerge oracle k (pyStr old) (pyStr v)))) := by
  constructor
  · have hstep : batchStep (s, 0) { slot := some k, value := some v } =
        (if old = v then (s, 0) else (setSlot s k v, 1)) := by
      unfold batchStep
      simp only [hv, Bool.false_eq_true, if_false, hk, hstrat, hold]
      by_cases hov : old = v
      · simp [hov]
      · have hne : (some old == some v) = false := by
          simp [hov]
        simp [hov, hne]
    unfold batchUpdate batchUpdateFold
    rw [List.foldl_cons, List.foldl_nil, hstep]
    by_cases hov : old = v
    · rw [if_pos hov, if_pos hov]
      simp
    · rw [if_neg hov, if_neg hov]
      simp
  · unfold mergeSlots
    rw [List.foldl_cons, List.foldl_nil]
    simp only [hstrat, hold]
    by_cases hm : Val.vs (llmMerge oracle k (pyStr old) (pyStr v)) = old
    · simp [hm]
    · have hne : (Val.vs (llmMerge oracle k (pyStr old) (pyStr v)) == old) = false := by
        simp [hm]
      simp [hm, hne]

/-- C6 witness: a concrete `llm_judge` slot with old value `old` receives
the batch value `new` by replacement, and the merge path stores the
adjudicated value. -/
theorem batchUpdate_llmJudge_replace_witness :
    batchUpdate judgeSlots [{ slot := some "emotional_baseline", value := some (.vs "new") }] =
      (if (Val.vs "old" : Val) = .vs "new" then judgeSlots
       else setSlot judgeSlots "emotional_baseline" (.vs "new")) ∧
    mergeSlots mergedOracle judgeSlots [("emotional_baseline", .vs "new")] =
      (if (Val.vs (llmMerge mergedOracle "emotional_baseline" (pyStr (.vs "old"))
            (pyStr (.vs "new"))) : Val) = .vs "old" then judgeSlots
       else setSlot judgeSlots "emotional_baseline"
         (.vs (llmMerge mergedOracle "emotional_baseline" (pyStr (.vs "old"))
            (pyStr (.vs "new"))))) :=
  batchUpdate_llmJudge_replace judgeSlots "emotional_baseline" (.vs "new") (.vs "old")
    mergedOracle rfl (by decide) (by decide) (by decide)

/-! ### Chat failure and whisper consumption order (C7) -/

/-- C7 (amended): when the chat LLM call fails, the error surfaces and
neither the chat log nor anything beyond `get_context`'s own read-path
writes is persisted — but the whisper was already consumed during
preparation (step 1, before prompt composition), and that consumption
persists for the failed turn. -/
theorem chatInteract_failure (ctxOracle : SummOracle) (chatOracle : Option String) (now : Nat)
    (u uq : String) (st : TurnState) (hfail : chatOracle = none) :
    (chatInteract ctxOracle chatOracle now u uq st).1 = none ∧
    (chatInteract ctxOracle chatOracle now u uq st).2.chatLog = st.chatLog ∧
    (chatInteract ctxOracle chatOracle now u uq st).2.ctx = (getContext ctxOracle now st.ctx).2 ∧
    (chatInteract ctxOracle chatOracle now u uq st).2.whispers =
      (getLatestWhisper st.whispers u).2 := by
  subst hfail
  exact ⟨rfl, rfl, rfl, rfl⟩

/-- C7 witness: a failing chat call on a state with one pending whisper
surfaces the error while leaving the whisper-table write of preparation in
place. -/
theorem chatInteract_failure_witness :
    (chatInteract failSummarizer none 100 "u" "hi" turnStart).1 = none ∧
    (chatInteract failSummarizer none 100 "u" "hi" turnStart).2.whispers =
      (getLatestWhisper turnStart.whispers "u").2 :=
  ⟨(chatInteract_failure failSummarizer none 100 "u" "hi" turnStart rfl).1,
   (chatInteract_failure failSummarizer none 100 "u" "hi" turnStart rfl).2.2.2⟩

/-- C7 counterexample: the turn whose chat call failed does partially
persist state — the newest unconsumed whisper, consumed during
preparation rather than at prompt composition, is left marked consumed. -/
theorem chatInteract_failure_cex :
    (chatInteract failSummarizer none 100 "u" "hi" turnStart).1 = none ∧
    (chatInteract failSummarizer none 100 "u" "hi" turnStart).2.whispers =
      [{ wid := 1, userId := "u", suggestion := "tip", isConsumed := true, createdAt := 10 }] ∧
    (chatInteract failSummarizer none 100 "u" "hi" turnStart).2.whispers ≠
      turnStart.whispers := by
  refine ⟨rfl, by decide, by decide⟩

/-! ### Memory dump (C9) -/

theorem mem_getAllMemories_iff (edges : List EdgeRec) (m : MemoryItem) :
    m ∈ getAllMemories edges ↔
      ∃ e ∈ edges, e.relation ≠ "MENTIONS" ∧ m = toMemoryItem e := by
  unfold getAllMemories
  simp only [List.mem_map, List.mem_filter]
  constructor
  · rintro ⟨e, ⟨he, hrel⟩, hm⟩
    exact ⟨e, he, by simpa using hrel, hm.symm⟩
  · rintro ⟨e, he, hrel, hm⟩
    exact ⟨e, ⟨he, by simpa using hrel⟩, hm.symm⟩

theorem toMemoryItem_isCurrent_iff (e : EdgeRec) :
    (toMemoryItem e).isCurrent = true ↔ e.invalidAt = none := by
  simp [toMemoryItem]

theorem mem_insertByValidAsc (m b : MemoryItem) (l : List MemoryItem) :
    b ∈ insertByValidAsc m l ↔ b = m ∨ b ∈ l := by
  induction l with
  | nil => simp [insertByValidAsc]
  | cons x xs ih =>
    by_cases h : validKey m ≤ validKey x
    · simp [insertByValidAsc, h]
    · simp [insertByValidAsc, h, ih]
      tauto

theorem pairwise_insertByValidAsc (m : MemoryItem) (l : List MemoryItem)
    (h : l.Pairwise (fun a b => validKey a ≤ validKey b)) :
    (insertByValidAsc m l).Pairwise (fun a b => validKey a ≤ validKey b) := by
  induction l with
  | nil => simp [insertByValidAsc]
  | cons x xs ih =>
    rw [List.pairwise_cons] at h
    by_cases hle : validKey m ≤ validKey x
    · rw [insertByValidAsc, if_pos hle, List.pairwise_cons]
      refine ⟨?_, List.pairwise_cons.mpr h⟩
      intro b hb
      rcases List.mem_cons.mp hb with hbx | hbxs
      · rw [hbx]
        exact hle
      · exact le_trans hle (h.1 b hbxs)
    · rw [insertByValidAsc, if_neg hle, List.pairwise_cons]
      refine ⟨?_, ih h.2⟩
      intro b hb
      rcases (mem_insertByValidAsc m b xs).mp hb with hbm | hbxs
      · rw [hbm]
        exact le_of_not_le hle
      · exact h.1 b hbxs

/-- The per-group histories `get_all` computes internally are sorted by
`valid_at` (with missing values as the empty string) ascending. -/
theorem groupedHistory_sorted (edges : List EdgeRec) (g : String × List MemoryItem)
    (hg : g ∈ groupedHistory edges) :
    g.2.Pairwise (fun a b => validKey a ≤ validKey b) := by
  unfold groupedHistory at hg
  simp only [List.mem_map] at hg
  obtain ⟨rel, _, hrel⟩ := hg
  rw [← hrel]
  show (sortByValidAsc _).Pairwise _
  generalize (getAllMemories edges).filter (fun m => m.relation == rel) = ms
  induction ms with
  | nil => simp [sortByValidAsc]
  | cons m rest ih => exact pairwise_insertByValidAsc m _ ih

/-- C9 (code-bug evidence): on a graph with one `LIKES` edge and one
`MENTIONS` edge, `get_all` returns the `LIKES` edge (current, since
`invalid_at` is null) and excludes the `MENTIONS` edge; the grouping it
computes internally is the expected one — but the returned dictionary
carries no `grouped` key, so the router's `grouped` field is `none`. -/
theorem getAll_grouped_dropped :
    getAllMemories [likesEdge, mentionsEdge] = [toMemoryItem likesEdge] ∧
    (toMemoryItem likesEdge).isCurrent = true ∧
    groupedHistory [likesEdge, mentionsEdge] = [("LIKES", [toMemoryItem likesEdge])] ∧
    (getAll [likesEdge, mentionsEdge] []).memories = [toMemoryItem likesEdge] ∧
    routerGrouped (getAll [likesEdge, mentionsEdge] []) = none := by
  refine ⟨by decide, by decide, by decide, by decide, rfl⟩

end MemoryBackend
